import Mathlib

/-!
Verification development for the ABAP selection-screen extraction service
(`src/app/app.py`).

The file shallowly embeds the Python source:

* `Json` models the values produced by Python's `json` module (restricted to
  the fragment relevant here: integers instead of arbitrary numerals, and
  strings as lists of characters).
* `re1_core` models `re.search(r"```(?:json)?\s*([\s\S]+?)```", text)`,
  returning capture group 1 of the leftmost match, with the engine's
  backtracking order: the optional `json` tag is tried first, `\s*` is greedy
  with backtracking, and the interior `[\s\S]+?` is lazy (shortest first).
* `re2_core` models `re.search(r"(\[\s*{[\s\S]+?}\s*])", text)`, returning the
  whole matched substring.
* `pv` / `json_loads` model `json.loads` (objects become association lists in
  insertion order with later duplicate keys overwriting the stored value, as
  Python's `dict` does; numerals are integers; the simple escape sequences and
  `\uXXXX` are decoded; surrogate-pair decoding and float literals are outside
  the modelled fragment).
* `extract_json_from_text`, `abap_lm_prompt`, `abap_declarations_api` mirror
  the functions of the same names; the single `try/except` of
  `extract_json_from_text` is rendered by returning `Json.arr []` at each
  point where the Python code's exception would be caught.
* `sanitizeDecls` models the endpoint's `for decl in declarations:
  decl.pop("type", None)` loop, with `none` standing for an uncaught Python
  exception (iterating a non-iterable, or `.pop` on a non-dict element).
-/

/-- JSON values as handled by the Python `json` module (integer fragment). -/
inductive Json where
  | null : Json
  | bool (b : Bool) : Json
  | num (n : Int) : Json
  | str (s : List Char) : Json
  | arr (elems : List Json) : Json
  | obj (members : List (List Char × Json)) : Json

instance : Inhabited Json := ⟨Json.null⟩

/-- The backtick character. -/
def tickCh : Char := Char.ofNat 96

/-- The double-quote character. -/
def quoteCh : Char := Char.ofNat 34

/-- The backslash character. -/
def bslashCh : Char := Char.ofNat 92

/-- The opening-brace character. -/
def lbraceCh : Char := Char.ofNat 123

/-- The closing-brace character. -/
def rbraceCh : Char := Char.ofNat 125

/-- Whitespace for the regex class `\s` (and for Python's `str.strip`). -/
def isReSpace (c : Char) : Bool :=
  c = ' ' || c = '\t' || c = '\n' || c = '\r' || c = '\x0B' || c = '\x0C'

/-- The text starts with a triple backtick. -/
def sw3 : List Char → Bool
  | c1 :: c2 :: c3 :: _ => c1 = tickCh && c2 = tickCh && c3 = tickCh
  | _ => false

/-- Length of the maximal leading `\s*` run. -/
def wsLen (cs : List Char) : Nat := (cs.takeWhile isReSpace).length

/-- Lazy scan of `[\s\S]+?` towards a closing triple backtick: `acc` holds the
interior read so far (reversed); the shortest interior whose continuation
starts with three backticks wins. -/
def scanClose (acc : List Char) : List Char → Option (List Char)
  | [] => none
  | c :: r => if sw3 (c :: r) then some acc.reverse else scanClose (c :: acc) r

/-- `[\s\S]+?` followed by a closing fence: at least one interior character,
then the lazy scan. -/
def tryInterior : List Char → Option (List Char)
  | [] => none
  | c :: r => scanClose [c] r

/-- `\s*` with backtracking: the greedy split (length `k`) is tried first, and
on failure shorter whitespace prefixes are retried (the regex engine's
behaviour for `\s*([\s\S]+?)`). -/
def tryWsFrom : Nat → List Char → Option (List Char)
  | 0, rest => tryInterior rest
  | k + 1, rest =>
    match tryInterior (rest.drop (k + 1)) with
    | some s => some s
    | none => tryWsFrom k rest

/-- After an opening triple backtick: `(?:json)?\s*([\s\S]+?)` followed by the
closing fence, with the optional `json` tag tried first. -/
def afterTicks (rest : List Char) : Option (List Char) :=
  match (if rest.take 4 = ['j', 's', 'o', 'n'] then
           tryWsFrom (wsLen (rest.drop 4)) (rest.drop 4)
         else none) with
  | some s => some s
  | none => tryWsFrom (wsLen rest) rest

/-- Attempt the fence pattern at the current position. -/
def attemptAt (cs : List Char) : Option (List Char) :=
  if sw3 cs then afterTicks (cs.drop 3) else none

/-- `re.search` for pattern 1: try every start position from the left,
returning group 1 of the first position that matches. -/
def re1_core : List Char → Option (List Char)
  | [] => none
  | c :: r =>
    match attemptAt (c :: r) with
    | some s => some s
    | none => re1_core r

/-- The closer `}\s*]` of pattern 2 at the current position; returns how many
characters it spans.  (`\s*` needs no backtracking here: a shorter whitespace
run would put a whitespace character where `]` must match.) -/
def closer2 : List Char → Option Nat
  | [] => none
  | c :: r =>
    if c = rbraceCh then
      match r.drop (wsLen r) with
      | d :: _ => if d = ']' then some (2 + wsLen r) else none
      | [] => none
    else none

/-- Lazy scan of `[\s\S]+?` towards `}\s*]`; returns interior plus closer. -/
def scan2 (acc : List Char) : List Char → Option (List Char)
  | [] => none
  | c :: r =>
    match closer2 (c :: r) with
    | some m => some (acc.reverse ++ (c :: r).take m)
    | none => scan2 (c :: acc) r

/-- Attempt pattern 2, `\[\s*{[\s\S]+?}\s*]`, at the current position,
returning the whole matched substring. -/
def attempt2At : List Char → Option (List Char)
  | [] => none
  | c :: rest =>
    if c = '[' then
      match rest.drop (wsLen rest) with
      | d :: rest2 =>
        if d = lbraceCh then
          match rest2 with
          | [] => none
          | e :: r =>
            match scan2 [e] r with
            | some s => some ('[' :: (rest.take (wsLen rest) ++ (lbraceCh :: s)))
            | none => none
        else none
      | [] => none
    else none

/-- `re.search` for pattern 2: leftmost start position that matches. -/
def re2_core : List Char → Option (List Char)
  | [] => none
  | c :: r =>
    match attempt2At (c :: r) with
    | some s => some s
    | none => re2_core r

/-- JSON whitespace accepted between tokens by `json.loads`. -/
def jsonWsCh (c : Char) : Bool := c = ' ' || c = '\t' || c = '\n' || c = '\r'

/-- Skip JSON whitespace. -/
def skipWs (cs : List Char) : List Char := cs.dropWhile jsonWsCh

/-- Value of a hexadecimal digit. -/
def hexVal (c : Char) : Option Nat :=
  if c.isDigit then some (c.toNat - 48)
  else if 'a' ≤ c && c ≤ 'f' then some (c.toNat - 87)
  else if 'A' ≤ c && c ≤ 'F' then some (c.toNat - 55)
  else none

/-- Decode a two-character escape sequence of a JSON string. -/
def escAnti (e : Char) : Option Char :=
  if e = quoteCh then some quoteCh
  else if e = bslashCh then some bslashCh
  else if e = '/' then some '/'
  else if e = 'n' then some '\n'
  else if e = 't' then some '\t'
  else if e = 'r' then some '\r'
  else if e = 'b' then some (Char.ofNat 8)
  else if e = 'f' then some (Char.ofNat 12)
  else none

/-- Parse the body of a JSON string after the opening quote, returning the
decoded content and the input after the closing quote. -/
def pstr : Nat → List Char → Option (List Char × List Char)
  | 0, _ => none
  | _ + 1, [] => none
  | f + 1, c :: r =>
    if c = quoteCh then some ([], r)
    else if c = bslashCh then
      match r with
      | [] => none
      | e :: r1 =>
        if e = 'u' then
          match r1 with
          | h1 :: h2 :: h3 :: h4 :: r2 =>
            match hexVal h1, hexVal h2, hexVal h3, hexVal h4 with
            | some a, some b, some c2, some d =>
              match pstr f r2 with
              | some (s, rest) =>
                some (Char.ofNat (((a * 16 + b) * 16 + c2) * 16 + d) :: s, rest)
              | none => none
            | _, _, _, _ => none
          | _ => none
        else
          match escAnti e with
          | some c1 =>
            match pstr f r1 with
            | some (s, rest) => some (c1 :: s, rest)
            | none => none
          | none => none
    else
      match pstr f r with
      | some (s, rest) => some (c :: s, rest)
      | none => none

/-- Numeric value of a digit string. -/
def digitsVal (ds : List Char) : Nat :=
  ds.foldl (fun a c => a * 10 + (c.toNat - 48)) 0

/-- Parse a nonempty run of decimal digits. -/
def pnat (cs : List Char) : Option (Nat × List Char) :=
  let ds := cs.takeWhile Char.isDigit
  if ds.isEmpty then none else some (digitsVal ds, cs.dropWhile Char.isDigit)

/-- Parse a JSON integer numeral (optional minus sign, then digits). -/
def pint : List Char → Option (Int × List Char)
  | [] => none
  | c :: r =>
    if c = '-' then
      match pnat r with
      | some (n, rest) => some (-(n : Int), rest)
      | none => none
    else
      match pnat (c :: r) with
      | some (n, rest) => some ((n : Int), rest)
      | none => none

/-- Insert-or-update of an association list, keeping the position of the first
occurrence of the key and the latest value — how a Python `dict` treats a
repeated key. -/
def updAssoc : List (List Char × Json) → List Char → Json → List (List Char × Json)
  | [], k, v => [(k, v)]
  | (k1, v1) :: t, k, v =>
    if k1 = k then (k1, v) :: t else (k1, v1) :: updAssoc t k v

/-- Build the `dict` of a parsed member list. -/
def dictOf (ps : List (List Char × Json)) : List (List Char × Json) :=
  ps.foldl (fun m kv => updAssoc m kv.1 kv.2) []

/-- Mode of the recursive-descent state: a value, the element list of an array
after `[`, or the member list of an object after `{`. -/
inductive PMode where
  | value : PMode
  | elems : PMode
  | members : PMode

/-- The recursive-descent core of `json.loads` (fuelled; `json_loads` always
supplies enough fuel).  Element-list mode wraps its result as `Json.arr`,
member-list mode as `Json.obj` of the raw pair list. -/
def pv : Nat → PMode → List Char → Option (Json × List Char)
  | 0, _, _ => none
  | f + 1, PMode.value, cs =>
    match skipWs cs with
    | [] => none
    | c :: r =>
      if c = lbraceCh then
        match skipWs r with
        | d :: r1 =>
          if d = rbraceCh then some (Json.obj [], r1)
          else
            match pv f PMode.members r with
            | some (Json.obj ms, rest) => some (Json.obj (dictOf ms), rest)
            | _ => none
        | [] => none
      else if c = '[' then
        match skipWs r with
        | d :: r1 =>
          if d = ']' then some (Json.arr [], r1)
          else
            match pv f PMode.elems r with
            | some (Json.arr l, rest) => some (Json.arr l, rest)
            | _ => none
        | [] => none
      else if c = quoteCh then
        match pstr (r.length + 1) r with
        | some (s, rest) => some (Json.str s, rest)
        | none => none
      else if (c :: r).take 4 = ['t', 'r', 'u', 'e'] then
        some (Json.bool true, (c :: r).drop 4)
      else if (c :: r).take 5 = ['f', 'a', 'l', 's', 'e'] then
        some (Json.bool false, (c :: r).drop 5)
      else if (c :: r).take 4 = ['n', 'u', 'l', 'l'] then
        some (Json.null, (c :: r).drop 4)
      else if c = '-' || c.isDigit then
        match pint (c :: r) with
        | some (n, rest) => some (Json.num n, rest)
        | none => none
      else none
  | f + 1, PMode.elems, cs =>
    match pv f PMode.value cs with
    | some (v, r) =>
      (match skipWs r with
       | d :: r1 =>
         if d = ',' then
           match pv f PMode.elems r1 with
           | some (Json.arr l, rest) => some (Json.arr (v :: l), rest)
           | _ => none
         else if d = ']' then some (Json.arr [v], r1)
         else none
       | [] => none)
    | none => none
  | f + 1, PMode.members, cs =>
    match skipWs cs with
    | [] => none
    | c :: r =>
      if c = quoteCh then
        match pstr (r.length + 1) r with
        | some (k, r1) =>
          (match skipWs r1 with
           | d :: r2 =>
             if d = ':' then
               match pv f PMode.value r2 with
               | some (v, r3) =>
                 (match skipWs r3 with
                  | e :: r4 =>
                    if e = ',' then
                      match pv f PMode.members r4 with
                      | some (Json.obj ms, rest) => some (Json.obj ((k, v) :: ms), rest)
                      | _ => none
                    else if e = rbraceCh then some (Json.obj [(k, v)], r4)
                    else none
                  | [] => none)
               | none => none
             else none
           | [] => none)
        | none => none
      else none

/-- Model of `json.loads` on the integer fragment: parse one value and require
only whitespace to remain. -/
def json_loads (cs : List Char) : Option Json :=
  match pv (2 * cs.length + 2) PMode.value cs with
  | some (v, rest) => if (skipWs rest).isEmpty then some v else none
  | none => none

/-- Steps 2 and 3 of `extract_json_from_text`: the embedded-array scan, then
the whole-text parse; a parse failure lands in the `except` branch, which
returns the empty list. -/
def step23 (text : List Char) : Json :=
  match re2_core text with
  | some snippet =>
    match json_loads snippet with
    | some v => v
    | none => Json.arr []
  | none =>
    match json_loads text with
    | some v => v
    | none => Json.arr []

/-- `extract_json_from_text` of `src/app/app.py`: fenced block first, then the
embedded-array scan, then the whole text; any `json.loads` exception is caught
and an empty list returned. -/
def extract_json_from_text (text : List Char) : Json :=
  match re1_core text with
  | some snippet =>
    match json_loads snippet with
    | some v => v
    | none => Json.arr []
  | none => step23 text

/-- The parse attempt made by `extract_json_from_text` before its exception
handler: the result of `json.loads` on the snippet chosen by the cascade
(`none` models the raised exception). -/
def extractOk (text : List Char) : Option Json :=
  match re1_core text with
  | some snippet => json_loads snippet
  | none =>
    match re2_core text with
    | some snippet => json_loads snippet
    | none => json_loads text

/-- Remove the entry of key `k` from a Python dict rendered as an association
list (`dict.pop(k, None)`; keys are unique, so the first hit is the only one). -/
def removeKey (k : List Char) : List (List Char × Json) → List (List Char × Json)
  | [] => []
  | (k1, v) :: t => if k1 = k then t else (k1, v) :: removeKey k t

/-- `decl.pop("type", None)` on one element of the extracted sequence: a dict
loses its `type` entry; any other element raises (`none`) — integers, strings
and lists have no such `pop`. -/
def popType : Json → Option Json
  | Json.obj kvs => some (Json.obj (removeKey "type".data kvs))
  | _ => none

/-- Run `popType` over every element, propagating the first raise. -/
def popAll : List Json → Option (List Json)
  | [] => some []
  | v :: t =>
    match popType v with
    | some v1 =>
      match popAll t with
      | some t1 => some (v1 :: t1)
      | none => none
    | none => none

/-- The endpoint's sanitising loop `for decl in declarations:
decl.pop("type", None)` applied to the extractor's result.  Iterating a
non-list follows Python: a dict iterates its keys and a string its characters
(so the loop body raises unless they are empty), and other values are not
iterable at all. -/
def sanitizeDecls : Json → Option Json
  | Json.arr l =>
    match popAll l with
    | some l1 => some (Json.arr l1)
    | none => none
  | Json.obj [] => some (Json.obj [])
  | Json.obj (_ :: _) => none
  | Json.str [] => some (Json.str [])
  | Json.str (_ :: _) => none
  | _ => none

/-- The fixed instruction text of `abap_lm_prompt` (everything before the
interpolated source code). -/
def abapPromptInstructions : String :=
  "You are an ABAP code analysis assistant.\n" ++
  "Analyze the following ABAP code and extract only SELECT-OPTIONS and PARAMETERS declarations (selection screen parameters).\n" ++
  "For each, return an object with keys: type, name, object, description (in which \"type\" is the declaration keyword, \"name\" is the identifier, \"object\" is the technical reference, and \"description\" is a one-sentence explanation).\n" ++
  "**Return the result as a raw JSON array, with NO prose, no markdown, no code block, and no explanation. Only output a single array.**\n\n"

/-- `abap_lm_prompt` of `src/app/app.py`: the fixed instructions followed by
the source code interpolated verbatim. -/
def abap_lm_prompt (code : String) : String :=
  "You are an ABAP code analysis assistant.\n" ++
  "Analyze the following ABAP code and extract only SELECT-OPTIONS and PARAMETERS declarations (selection screen parameters).\n" ++
  "For each, return an object with keys: type, name, object, description (in which \"type\" is the declaration keyword, \"name\" is the identifier, \"object\" is the technical reference, and \"description\" is a one-sentence explanation).\n" ++
  "**Return the result as a raw JSON array, with NO prose, no markdown, no code block, and no explanation. Only output a single array.**\n\n" ++
  code

/-- The request model `ABAPCode` (all fields are strings after validation). -/
structure ABAPCode where
  code : String
  pgm_name : String
  inc_name : String
  type : String

/-- The endpoint's JSON response body. -/
structure SelScreenResponse where
  pgm_name : String
  inc_name : String
  type : String
  selectionscreen : Json

/-- Outcome of one request: a 200 body, an `HTTPException`, or an uncaught
server-side exception. -/
inductive ApiOutcome where
  | ok (body : SelScreenResponse) : ApiOutcome
  | clientError (status : Nat) (detail : String) : ApiOutcome
  | serverError : ApiOutcome

/-- `not code.strip()` of the validation check: every character is whitespace. -/
def isPyBlank (s : String) : Bool := s.data.all isReSpace

/-- `abap_declarations_api` of `src/app/app.py`, with the outbound model call
abstracted as a function `llm` from the prompt to the reply text. -/
def abap_declarations_api (llm : String → String) (input : ABAPCode) : ApiOutcome :=
  if isPyBlank input.code then
    ApiOutcome.clientError 400 "Missing or empty \x27code\x27 field."
  else
    match sanitizeDecls (extract_json_from_text (llm (abap_lm_prompt input.code)).data) with
    | some ds => ApiOutcome.ok ⟨input.pgm_name, input.inc_name, input.type, ds⟩
    | none => ApiOutcome.serverError

/-- Constructor tag of a JSON value, to separate values of different shapes. -/
def jtag : Json → Nat
  | Json.null => 0
  | Json.bool _ => 1
  | Json.num _ => 2
  | Json.str _ => 3
  | Json.arr _ => 4
  | Json.obj _ => 5

/-- Top-level element count of an array or object. -/
def topLen : Json → Nat
  | Json.arr l => l.length
  | Json.obj m => m.length
  | _ => 0

/-- Whether a JSON value is a sequence (a Python list). -/
def isArrJson : Json → Bool
  | Json.arr _ => true
  | _ => false


/-- Whether the endpoint outcome is an HTTP 200. -/
def isOkOutcome : ApiOutcome → Bool
  | ApiOutcome.ok _ => true
  | _ => false

/-- Bridge: the extractor returns the cascade's parse result, with the
exception handler's empty list as the default. -/
theorem extract_eq_attempt (t : List Char) :
    extract_json_from_text t = (extractOk t).getD (Json.arr []) := by
  cases h1 : re1_core t with
  | some s =>
    cases h2 : json_loads s <;>
      simp [extract_json_from_text, extractOk, h1, h2]
  | none =>
    cases h2 : re2_core t with
    | some s =>
      cases h3 : json_loads s <;>
        simp [extract_json_from_text, extractOk, step23, h1, h2, h3]
    | none =>
      cases h3 : json_loads t <;>
        simp [extract_json_from_text, extractOk, step23, h1, h2, h3]

/-- Claim C1, counterexample: on text whose fenced block has an unparsable
interior but which also contains a parsable embedded array, the extractor
returns the empty list instead of the step-2 parse the claim promises. -/
theorem c1_fence_failure_no_fallthrough_cx :
    re1_core "```not json``` [\x7b\"a\": 1\x7d]".data = some "not json".data ∧
    json_loads "not json".data = none ∧
    re2_core "```not json``` [\x7b\"a\": 1\x7d]".data = some "[\x7b\"a\": 1\x7d]".data ∧
    json_loads "[\x7b\"a\": 1\x7d]".data = some (Json.arr [Json.obj [("a".data, Json.num 1)]]) ∧
    extract_json_from_text "```not json``` [\x7b\"a\": 1\x7d]".data = Json.arr [] ∧
    extract_json_from_text "```not json``` [\x7b\"a\": 1\x7d]".data
      ≠ Json.arr [Json.obj [("a".data, Json.num 1)]] :=
  ⟨by decide, rfl, by decide, rfl, rfl,
   fun h => absurd (congrArg topLen h) (by decide)⟩

/-- Claim C1, amended: the strategies fall through only on a missing regex
match; a fenced block that is found but fails to parse makes the exception
handler return the empty list at once, without attempting steps 2 and 3. -/
theorem c1_fence_parse_failure_short_circuits :
    ∀ text : List Char,
      (∀ s, re1_core text = some s → json_loads s = none →
        extract_json_from_text text = Json.arr []) ∧
      (re1_core text = none → extract_json_from_text text = step23 text) := by
  intro text
  constructor
  · intro s h1 h2
    simp only [extract_json_from_text, h1, h2]
  · intro h1
    simp only [extract_json_from_text, h1]

/-- Witness for the amended C1 theorem at a concrete input. -/
theorem c1_fence_parse_failure_short_circuits_witness :
    extract_json_from_text "```oops```".data = Json.arr [] :=
  (c1_fence_parse_failure_short_circuits "```oops```".data).1
    "oops".data (by decide) rfl

/-- Claim C2, counterexample: on a whole-text parse that succeeds with the
wrong top-level shape (a JSON string), the extractor returns that value, not
the empty sequence the claim's failure taxonomy promises. -/
theorem c2_wrong_shape_not_empty_cx :
    re1_core "\"hello\"".data = none ∧
    re2_core "\"hello\"".data = none ∧
    json_loads "\"hello\"".data = some (Json.str "hello".data) ∧
    isArrJson (Json.str "hello".data) = false ∧
    extract_json_from_text "\"hello\"".data = Json.str "hello".data ∧
    extract_json_from_text "\"hello\"".data ≠ Json.arr [] :=
  ⟨by decide, by decide, rfl, rfl, rfl,
   fun h => absurd (congrArg jtag h) (by decide)⟩

/-- Claim C2, amended: the extractor never raises outward — it always returns
the cascade's parse result, with the empty list whenever the attempted
recovery raises or nothing parses; in particular a plain sentence yields the
empty sequence.  (A successful whole-text parse of non-array shape is
returned as-is, not replaced by the empty sequence.) -/
theorem c2_no_raise_empty_on_failure :
    (∀ text : List Char,
      extract_json_from_text text = (extractOk text).getD (Json.arr [])) ∧
    extract_json_from_text "This is a plain sentence.".data = Json.arr [] :=
  ⟨extract_eq_attempt, rfl⟩

/-- Claim C3, counterexample: text consisting of a bare numeral makes the
extractor return a scalar, not a sequence. -/
theorem c3_scalar_result_cx :
    extract_json_from_text "42".data = Json.num 42 ∧
    isArrJson (extract_json_from_text "42".data) = false ∧
    jtag (extract_json_from_text "42".data) ≠ jtag (Json.arr []) :=
  ⟨rfl, rfl, by decide⟩

/-- Claim C3, amended: the extractor returns the parsed JSON value of the
first snippet the cascade settles on — whatever its top-level shape — and is
a sequence by construction only in the failure case, where it is the empty
list. -/
theorem c3_result_parsed_or_empty :
    ∀ text : List Char,
      (∃ v, extractOk text = some v ∧ extract_json_from_text text = v) ∨
      (extractOk text = none ∧ extract_json_from_text text = Json.arr []) := by
  intro text
  cases h : extractOk text with
  | some v => exact Or.inl ⟨v, rfl, by rw [extract_eq_attempt, h]; rfl⟩
  | none => exact Or.inr ⟨rfl, by rw [extract_eq_attempt, h]; rfl⟩

/-- Claim C4: the sanitising loop strips `type` where present and leaves a
record without `type` unchanged, but an extracted sequence containing a
non-object element makes the loop raise (`none`) instead of the no-op the
claim requires — the failing evaluation is the third conjunct. -/
theorem c4_sanitizer_nonobject_raises :
    sanitizeDecls (Json.arr [Json.obj [("type".data, Json.str "PARAMETERS".data),
        ("name".data, Json.str "p_matnr".data)]])
      = some (Json.arr [Json.obj [("name".data, Json.str "p_matnr".data)]]) ∧
    sanitizeDecls (Json.arr [Json.obj [("name".data, Json.str "p_matnr".data)]])
      = some (Json.arr [Json.obj [("name".data, Json.str "p_matnr".data)]]) ∧
    sanitizeDecls (Json.arr [Json.obj [("name".data, Json.str "x".data)], Json.num 42])
      = none :=
  ⟨rfl, rfl, rfl⟩

/-- Claim C10: the extractor is deterministic — its output is a function of
the input text alone. -/
theorem c10_extractor_deterministic :
    ∀ t1 t2 : List Char, t1 = t2 →
      extract_json_from_text t1 = extract_json_from_text t2 :=
  fun _ _ h => congrArg extract_json_from_text h

/-- Witness for C10 at a concrete input. -/
theorem c10_extractor_deterministic_witness :
    extract_json_from_text "sample reply".data
      = extract_json_from_text "sample reply".data :=
  c10_extractor_deterministic "sample reply".data "sample reply".data rfl

/-- Claim C5: a blank `code` field produces the 400 client error, and the
outcome does not depend on the model function at all — no model call can
influence (or be required for) the response. -/
theorem c5_blank_code_400_no_model_call :
    ∀ (llm llm2 : String → String) (input : ABAPCode),
      isPyBlank input.code = true →
      abap_declarations_api llm input
          = ApiOutcome.clientError 400 "Missing or empty \x27code\x27 field." ∧
      abap_declarations_api llm input = abap_declarations_api llm2 input := by
  intro llm llm2 input h
  constructor <;> simp [abap_declarations_api, h]

/-- Witness for C5 at a whitespace-only `code`. -/
theorem c5_blank_code_400_no_model_call_witness :
    isPyBlank "  \t " = true ∧
    abap_declarations_api (fun _ => "[]") ⟨"  \t ", "P1", "I1", "T1"⟩
      = ApiOutcome.clientError 400 "Missing or empty \x27code\x27 field." :=
  ⟨by decide,
   (c5_blank_code_400_no_model_call (fun _ => "[]") (fun s => s)
     ⟨"  \t ", "P1", "I1", "T1"⟩ (by decide)).1⟩

/-- Claim C6, counterexample: a non-blank request for which the model reply
parses to a list containing a non-object element makes the endpoint raise
(server error), not return the HTTP success the claim promises. -/
theorem c6_not_always_success_cx :
    isPyBlank "REPORT x." = false ∧
    abap_declarations_api (fun _ => "[42]") ⟨"REPORT x.", "P", "I", "T"⟩
      = ApiOutcome.serverError ∧
    isOkOutcome (abap_declarations_api (fun _ => "[42]")
      ⟨"REPORT x.", "P", "I", "T"⟩) = false :=
  ⟨by decide, rfl, rfl⟩

/-- Claim C6, amended: whenever `code` is non-blank and extracting-then-
sanitising the model's reply succeeds, the endpoint returns HTTP success with
`pgm_name`, `inc_name` and `type` echoed verbatim and `selectionscreen`
holding the sanitised extraction result; replies on which sanitisation raises
produce a server error instead. -/
theorem c6_success_echoes_fields :
    ∀ (llm : String → String) (input : ABAPCode) (ds : Json),
      isPyBlank input.code = false →
      sanitizeDecls (extract_json_from_text
          (llm (abap_lm_prompt input.code)).data) = some ds →
      abap_declarations_api llm input
        = ApiOutcome.ok ⟨input.pgm_name, input.inc_name, input.type, ds⟩ := by
  intro llm input ds h1 h2
  simp [abap_declarations_api, h1, h2]

/-- Witness for the amended C6 theorem at a concrete request and reply. -/
theorem c6_success_echoes_fields_witness :
    isPyBlank "REPORT zx." = false ∧
    abap_declarations_api
        (fun _ => "[\x7b\"type\": \"PARAMETERS\", \"name\": \"p1\"\x7d]")
        ⟨"REPORT zx.", "PG", "IN", "TY"⟩
      = ApiOutcome.ok ⟨"PG", "IN", "TY",
          Json.arr [Json.obj [("name".data, Json.str "p1".data)]]⟩ :=
  ⟨by decide,
   c6_success_echoes_fields
     (fun _ => "[\x7b\"type\": \"PARAMETERS\", \"name\": \"p1\"\x7d]")
     ⟨"REPORT zx.", "PG", "IN", "TY"⟩
     (Json.arr [Json.obj [("name".data, Json.str "p1".data)]])
     (by decide) rfl⟩

/-- Claim C7: the prompt builder is a pure function equal to a fixed
instruction prefix concatenated with the verbatim source text — no escaping
and no truncation (the length is exactly the sum of both parts). -/
theorem c7_prompt_deterministic_verbatim :
    (∀ code : String, abap_lm_prompt code = abapPromptInstructions ++ code) ∧
    (∀ code : String,
      (abap_lm_prompt code).length
        = abapPromptInstructions.length + code.length) := by
  constructor
  · intro code; rfl
  · intro code
    rw [show abap_lm_prompt code = abapPromptInstructions ++ code from rfl]
    exact String.length_append _ _

/-- A triple backtick needs at least three characters. -/
theorem sw3_length (l : List Char) (h : sw3 l = true) : 3 ≤ l.length := by
  match l with
  | [] => simp [sw3] at h
  | [c1] => simp [sw3] at h
  | [c1, c2] => simp [sw3] at h
  | c1 :: c2 :: c3 :: t => simp

/-- A successful lazy closer scan found a triple backtick in its input. -/
theorem scanClose_some_triple (cs : List Char) :
    ∀ (acc s : List Char), scanClose acc cs = some s →
      ∃ m, sw3 (cs.drop m) = true := by
  induction cs with
  | nil => intro acc s h; simp [scanClose] at h
  | cons c r ih =>
    intro acc s h
    rw [scanClose] at h
    by_cases hs : sw3 (c :: r) = true
    · exact ⟨0, hs⟩
    · rw [if_neg hs] at h
      obtain ⟨m, hm⟩ := ih _ _ h
      exact ⟨m + 1, by simpa using hm⟩

/-- A successful interior attempt found a triple backtick at least one
character in. -/
theorem tryInterior_some_triple (cs s : List Char)
    (h : tryInterior cs = some s) :
    ∃ m, 1 ≤ m ∧ sw3 (cs.drop m) = true := by
  match cs with
  | [] => simp [tryInterior] at h
  | c :: r =>
    rw [tryInterior] at h
    obtain ⟨m, hm⟩ := scanClose_some_triple r _ _ h
    exact ⟨m + 1, by omega, by simpa using hm⟩

/-- A successful whitespace-backtracking attempt found a triple backtick at
least one character in. -/
theorem tryWsFrom_some_triple (k : Nat) (rest s : List Char)
    (h : tryWsFrom k rest = some s) :
    ∃ m, 1 ≤ m ∧ sw3 (rest.drop m) = true := by
  induction k with
  | zero =>
    rw [tryWsFrom] at h
    exact tryInterior_some_triple _ _ h
  | succ k ih =>
    rw [tryWsFrom] at h
    cases hti : tryInterior (rest.drop (k + 1)) with
    | some s2 =>
      obtain ⟨m, hm1, hm2⟩ := tryInterior_some_triple _ _ hti
      rw [List.drop_drop] at hm2
      exact ⟨k + 1 + m, by omega, hm2⟩
    | none =>
      rw [hti] at h
      exact ih h

/-- A successful post-fence attempt found a triple backtick at least one
character after the opener. -/
theorem afterTicks_some_triple (rest s : List Char)
    (h : afterTicks rest = some s) :
    ∃ m, 1 ≤ m ∧ sw3 (rest.drop m) = true := by
  unfold afterTicks at h
  by_cases hj : rest.take 4 = ['j', 's', 'o', 'n']
  · rw [if_pos hj] at h
    cases hc : tryWsFrom (wsLen (rest.drop 4)) (rest.drop 4) with
    | some s2 =>
      obtain ⟨m, hm1, hm2⟩ := tryWsFrom_some_triple _ _ _ hc
      rw [List.drop_drop] at hm2
      exact ⟨4 + m, by omega, hm2⟩
    | none =>
      rw [hc] at h
      exact tryWsFrom_some_triple _ _ _ h
  · rw [if_neg hj] at h
    exact tryWsFrom_some_triple _ _ _ h

/-- A successful attempt at one position means an opener triple there and a
closer triple at least four characters later. -/
theorem attemptAt_some_triples (cs s : List Char)
    (h : attemptAt cs = some s) :
    sw3 cs = true ∧ ∃ m, 4 ≤ m ∧ sw3 (cs.drop m) = true := by
  unfold attemptAt at h
  by_cases hs : sw3 cs = true
  · rw [if_pos hs] at h
    obtain ⟨m, hm1, hm2⟩ := afterTicks_some_triple _ _ h
    rw [List.drop_drop] at hm2
    exact ⟨hs, 3 + m, by omega, hm2⟩
  · rw [if_neg hs] at h
    cases h

/-- A successful fence search means an opener triple at some position and a
closer triple at least four characters later. -/
theorem re1_core_some_triples (cs s : List Char)
    (h : re1_core cs = some s) :
    ∃ p m, sw3 (cs.drop p) = true ∧ 4 ≤ m ∧ sw3 (cs.drop (p + m)) = true := by
  induction cs with
  | nil => simp [re1_core] at h
  | cons c r ih =>
    rw [re1_core] at h
    cases ha : attemptAt (c :: r) with
    | some s2 =>
      obtain ⟨h1, m, hm, h2⟩ := attemptAt_some_triples _ _ ha
      exact ⟨0, m, by simpa using h1, hm, by simpa using h2⟩
    | none =>
      rw [ha] at h
      obtain ⟨p, m, h1, hm, h2⟩ := ih h
      refine ⟨p + 1, m, by simpa using h1, hm, ?_⟩
      have : p + 1 + m = (p + m) + 1 := by omega
      rw [this]
      simpa using h2

/-- Claim C9: a text whose first triple backtick is never followed (three or
more characters later) by another triple backtick has no fence match, so the
extractor falls through to the embedded-array scan and the whole-text parse. -/
theorem c9_unterminated_fence_falls_through :
    ∀ (text : List Char) (i : Nat),
      sw3 (text.drop i) = true →
      (∀ j, j < i → sw3 (text.drop j) = false) →
      (∀ j, j < text.length → i + 3 ≤ j → sw3 (text.drop j) = false) →
      re1_core text = none ∧ extract_json_from_text text = step23 text := by
  intro text i hi hleast hnone
  have hre : re1_core text = none := by
    cases hr : re1_core text with
    | none => rfl
    | some s =>
      exfalso
      obtain ⟨p, m, h1, hm, h2⟩ := re1_core_some_triples _ _ hr
      have hpi : i ≤ p := by
        by_contra hpi
        push_neg at hpi
        rw [hleast p hpi] at h1
        cases h1
      have hlen : p + m < text.length := by
        have h3 := sw3_length _ h2
        have h4 : (text.drop (p + m)).length = text.length - (p + m) :=
          List.length_drop _ _
        omega
      have hfalse : sw3 (text.drop (p + m)) = false :=
        hnone (p + m) hlen (by omega)
      rw [hfalse] at h2
      cases h2
  refine ⟨hre, ?_⟩
  simp only [extract_json_from_text, hre]

/-- Witness for C9: one unterminated fence before an embedded array; the
extractor lands on the step-2 parse. -/
theorem c9_unterminated_fence_falls_through_witness :
    re1_core "``` [\x7b\"a\": 1\x7d]".data = none ∧
    extract_json_from_text "``` [\x7b\"a\": 1\x7d]".data
      = step23 "``` [\x7b\"a\": 1\x7d]".data ∧
    extract_json_from_text "``` [\x7b\"a\": 1\x7d]".data
      = Json.arr [Json.obj [("a".data, Json.num 1)]] := by
  have h := c9_unterminated_fence_falls_through "``` [\x7b\"a\": 1\x7d]".data 0
    (by decide) (fun j hj => absurd hj (Nat.not_lt_zero j)) (by decide)
  exact ⟨h.1, h.2, rfl⟩

/-- `json.dumps` escaping of one string character (the two-character escapes;
other characters are emitted raw — `ensure_ascii` only changes the spelling of
non-ASCII characters, not what `json.loads` recovers). -/
def escChar (c : Char) : List Char :=
  if c = quoteCh then [bslashCh, quoteCh]
  else if c = bslashCh then [bslashCh, bslashCh]
  else if c = '\n' then [bslashCh, 'n']
  else if c = '\t' then [bslashCh, 't']
  else if c = '\r' then [bslashCh, 'r']
  else if c = Char.ofNat 8 then [bslashCh, 'b']
  else if c = Char.ofNat 12 then [bslashCh, 'f']
  else [c]

/-- Escaped body of a serialised JSON string. -/
def escBody : List Char → List Char
  | [] => []
  | c :: t => escChar c ++ escBody t

/-- Serialised JSON string with its quotes. -/
def serStr (s : List Char) : List Char := quoteCh :: (escBody s ++ [quoteCh])

/-- One serialised `"key": "value"` member (the `: ` separator of
`json.dumps`). -/
def serPair (kv : List Char × List Char) : List Char :=
  serStr kv.1 ++ ':' :: ' ' :: serStr kv.2

/-- Serialised member list joined by the `, ` separator of `json.dumps`. -/
def serMembers : List (List Char × List Char) → List Char
  | [] => []
  | [kv] => serPair kv
  | kv :: kv2 :: t => serPair kv ++ ',' :: ' ' :: serMembers (kv2 :: t)

/-- One serialised flat record (an object of string values). -/
def serRec (r : List (List Char × List Char)) : List Char :=
  lbraceCh :: (serMembers r ++ [rbraceCh])

/-- Serialised record list joined by `, `. -/
def serRecsBody : List (List (List Char × List Char)) → List Char
  | [] => []
  | [r] => serRec r
  | r :: r2 :: t => serRec r ++ ',' :: ' ' :: serRecsBody (r2 :: t)

/-- Model of `json.dumps` on an array of flat records with string values —
the shape of the extractor's declaration tables. -/
def serRecords (rs : List (List (List Char × List Char))) : List Char :=
  '[' :: (serRecsBody rs ++ [']'])

/-- The JSON value denoted by a flat record. -/
def recToJson (r : List (List Char × List Char)) : Json :=
  Json.obj (r.map (fun kv => (kv.1, Json.str kv.2)))

/-- The JSON value denoted by an array of flat records. -/
def recsToJson (rs : List (List (List Char × List Char))) : Json :=
  Json.arr (rs.map recToJson)


set_option maxHeartbeats 1000000

/-- Parsing a two-character escape sequence prepends its decoded character. -/
theorem pstr_twoEsc (e c1 : Char) (z : List Char) (f : Nat)
    (he : e ≠ 'u') (ha : escAnti e = some c1) :
    pstr (f + 1) (bslashCh :: e :: z)
      = (pstr f z).map (fun p => (c1 :: p.1, p.2)) := by
  have hbq : (bslashCh = quoteCh) = False := by decide
  cases hp : pstr f z <;> simp [pstr, hbq, he, ha, hp]

/-- Parsing a raw (unescaped) character prepends it. -/
theorem pstr_raw (c : Char) (z : List Char) (f : Nat)
    (h1 : c ≠ quoteCh) (h2 : c ≠ bslashCh) :
    pstr (f + 1) (c :: z)
      = (pstr f z).map (fun p => (c :: p.1, p.2)) := by
  cases hp : pstr f z <;> simp [pstr, h1, h2, hp]

/-- Parsing one escaped character of a serialised string consumes one fuel
step and prepends the original character. -/
theorem pstr_escChar (c : Char) (z : List Char) (f : Nat) :
    pstr (f + 1) (escChar c ++ z)
      = (pstr f z).map (fun p => (c :: p.1, p.2)) := by
  by_cases h1 : c = quoteCh
  · subst h1
    rw [show escChar quoteCh = [bslashCh, quoteCh] from by decide]
    exact pstr_twoEsc quoteCh quoteCh z f (by decide) (by decide)
  · by_cases h2 : c = bslashCh
    · subst h2
      rw [show escChar bslashCh = [bslashCh, bslashCh] from by decide]
      exact pstr_twoEsc bslashCh bslashCh z f (by decide) (by decide)
    · by_cases h3 : c = '\n'
      · subst h3
        rw [show escChar '\n' = [bslashCh, 'n'] from by decide]
        exact pstr_twoEsc 'n' '\n' z f (by decide) (by decide)
      · by_cases h4 : c = '\t'
        · subst h4
          rw [show escChar '\t' = [bslashCh, 't'] from by decide]
          exact pstr_twoEsc 't' '\t' z f (by decide) (by decide)
        · by_cases h5 : c = '\r'
          · subst h5
            rw [show escChar '\r' = [bslashCh, 'r'] from by decide]
            exact pstr_twoEsc 'r' '\r' z f (by decide) (by decide)
          · by_cases h6 : c = Char.ofNat 8
            · subst h6
              rw [show escChar (Char.ofNat 8) = [bslashCh, 'b'] from by decide]
              exact pstr_twoEsc 'b' (Char.ofNat 8) z f (by decide) (by decide)
            · by_cases h7 : c = Char.ofNat 12
              · subst h7
                rw [show escChar (Char.ofNat 12) = [bslashCh, 'f'] from by decide]
                exact pstr_twoEsc 'f' (Char.ofNat 12) z f (by decide) (by decide)
              · rw [show escChar c = [c] from by
                  simp [escChar, h1, h2, h3, h4, h5, h6, h7]]
                exact pstr_raw c z f h1 h2

/-- An escaped character is at least one character long. -/
theorem escChar_length_pos (c : Char) : 1 ≤ (escChar c).length := by
  unfold escChar
  split_ifs <;> simp

/-- Round trip of a serialised string body: with enough fuel, parsing the
escaped body followed by the closing quote recovers the original content. -/
theorem pstr_escBody (s : List Char) :
    ∀ (z : List Char) (f : Nat), (escBody s).length + 1 ≤ f →
      pstr f (escBody s ++ quoteCh :: z) = some (s, z) := by
  induction s with
  | nil =>
    intro z f hf
    cases f with
    | zero => omega
    | succ f1 => simp [escBody, pstr]
  | cons c t ih =>
    intro z f hf
    have hlen : (escBody (c :: t)).length
        = (escChar c).length + (escBody t).length := by
      simp [escBody]
    have hpos := escChar_length_pos c
    cases f with
    | zero => omega
    | succ f1 =>
      have hsplit : escBody (c :: t) ++ quoteCh :: z
          = escChar c ++ (escBody t ++ quoteCh :: z) := by
        simp [escBody]
      rw [hsplit, pstr_escChar, ih z f1 (by omega)]
      rfl

/-- `skipWs` keeps a non-whitespace head. -/
theorem skipWs_cons_of_not (c : Char) (x : List Char)
    (h : jsonWsCh c = false) : skipWs (c :: x) = c :: x := by
  simp [skipWs, List.dropWhile_cons, h]

/-- `skipWs` drops a whitespace head. -/
theorem skipWs_cons_of_ws (c : Char) (x : List Char)
    (h : jsonWsCh c = true) : skipWs (c :: x) = skipWs x := by
  simp [skipWs, List.dropWhile_cons, h]

/-- Value-mode parsing only sees the input through `skipWs`. -/
theorem pv_value_congr (f : Nat) (cs1 cs2 : List Char)
    (h : skipWs cs1 = skipWs cs2) :
    pv (f + 1) PMode.value cs1 = pv (f + 1) PMode.value cs2 := by
  simp only [pv, h]

/-- Member-mode parsing only sees the input through `skipWs`. -/
theorem pv_members_congr (f : Nat) (cs1 cs2 : List Char)
    (h : skipWs cs1 = skipWs cs2) :
    pv (f + 1) PMode.members cs1 = pv (f + 1) PMode.members cs2 := by
  simp only [pv, h]

/-- Element-mode parsing only sees the input through `skipWs` (via the value
it starts with). -/
theorem pv_elems_congr (f : Nat) (cs1 cs2 : List Char)
    (h : skipWs cs1 = skipWs cs2) :
    pv (f + 1) PMode.elems cs1 = pv (f + 1) PMode.elems cs2 := by
  cases f with
  | zero => simp only [pv]
  | succ f2 =>
    simp only [pv]
    rw [h]

/-- Round trip of one serialised string value. -/
theorem pv_serStr (s z : List Char) (f : Nat) :
    pv (f + 1) PMode.value (serStr s ++ z) = some (Json.str s, z) := by
  have hsplit : serStr s ++ z = quoteCh :: (escBody s ++ quoteCh :: z) := by
    simp [serStr]
  have hq : jsonWsCh quoteCh = false := by decide
  have hlb : (quoteCh = lbraceCh) = False := by decide
  have hlk : (quoteCh = '[') = False := by decide
  have hlen : (escBody s).length + 1
      ≤ (escBody s ++ quoteCh :: z).length + 1 := by
    simp
  simp only [pv, hsplit, skipWs_cons_of_not _ _ hq, hlb, hlk]
  simp only [pstr_escBody s z _ hlen]
  simp

/-- Updating an association list at a fresh key appends the pair. -/
theorem updAssoc_append (acc : List (List Char × Json)) (k : List Char) (v : Json)
    (h : k ∉ acc.map Prod.fst) : updAssoc acc k v = acc ++ [(k, v)] := by
  induction acc with
  | nil => rfl
  | cons kv t ih =>
    obtain ⟨k1, v1⟩ := kv
    have h1 : ¬(k1 = k) := by
      intro he
      subst he
      exact h (by simp)
    have h2 : k ∉ t.map Prod.fst := by
      intro hm
      exact h (by simp [hm])
    rw [updAssoc, if_neg h1, ih h2]
    rfl

/-- Folding `updAssoc` over pairs with fresh, duplicate-free keys appends
them in order. -/
theorem foldl_updAssoc (ps : List (List Char × Json)) :
    ∀ acc : List (List Char × Json),
      (∀ k, k ∈ ps.map Prod.fst → k ∉ acc.map Prod.fst) →
      (ps.map Prod.fst).Nodup →
      ps.foldl (fun m kv => updAssoc m kv.1 kv.2) acc = acc ++ ps := by
  induction ps with
  | nil => intro acc _ _; simp
  | cons kv t ih =>
    intro acc hdisj hnodup
    obtain ⟨k, v⟩ := kv
    simp only [List.map_cons, List.nodup_cons] at hnodup
    have hk : k ∉ acc.map Prod.fst := hdisj k (by simp)
    have hdisj2 : ∀ k2, k2 ∈ t.map Prod.fst →
        k2 ∉ (acc ++ [(k, v)]).map Prod.fst := by
      intro k2 hm
      simp only [List.map_append, List.mem_append]
      rintro (hin | hin)
      · exact hdisj k2 (by simp [hm]) hin
      · simp at hin
        subst hin
        exact hnodup.1 hm
    rw [List.foldl_cons]
    rw [show updAssoc acc (k, v).1 (k, v).2 = acc ++ [(k, v)] from
      updAssoc_append acc k v hk]
    rw [ih (acc ++ [(k, v)]) hdisj2 hnodup.2]
    simp

/-- A pair list with duplicate-free keys is its own dict. -/
theorem dictOf_self (ps : List (List Char × Json))
    (h : (ps.map Prod.fst).Nodup) : dictOf ps = ps := by
  have hf := foldl_updAssoc ps [] (by simp) h
  simpa [dictOf] using hf

/-- Member-mode round trip of the final serialised member before the closing
brace. -/
theorem pv_members_last (f2 : Nat) (k v z : List Char) :
    pv (f2 + 2) PMode.members (serPair (k, v) ++ rbraceCh :: z)
      = some (Json.obj [(k, Json.str v)], z) := by
  have e1 : serPair (k, v) ++ rbraceCh :: z
      = quoteCh :: (escBody k ++ quoteCh ::
          (':' :: ' ' :: (serStr v ++ rbraceCh :: z))) := by
    simp [serPair, serStr]
  have hrc : (rbraceCh = ',') = False := by decide
  have hlb : (quoteCh = lbraceCh) = False := by decide
  have hlk : (quoteCh = '[') = False := by decide
  have s0 : skipWs (quoteCh :: (escBody k ++ quoteCh ::
      (':' :: ' ' :: (serStr v ++ rbraceCh :: z))))
      = quoteCh :: (escBody k ++ quoteCh ::
          (':' :: ' ' :: (serStr v ++ rbraceCh :: z))) :=
    skipWs_cons_of_not _ _ (by decide)
  have hps := pstr_escBody k (':' :: ' ' :: (serStr v ++ rbraceCh :: z))
    ((escBody k ++ quoteCh ::
      (':' :: ' ' :: (serStr v ++ rbraceCh :: z))).length + 1) (by simp)
  have s1 : skipWs (':' :: ' ' :: (serStr v ++ rbraceCh :: z))
      = ':' :: ' ' :: (serStr v ++ rbraceCh :: z) :=
    skipWs_cons_of_not _ _ (by decide)
  have s3 : skipWs (' ' :: (serStr v ++ rbraceCh :: z))
      = quoteCh :: (escBody v ++ quoteCh :: (rbraceCh :: z)) := by
    rw [skipWs_cons_of_ws _ _ (by decide)]
    rw [show serStr v ++ rbraceCh :: z
        = quoteCh :: (escBody v ++ quoteCh :: (rbraceCh :: z)) from by
      simp [serStr]]
    exact skipWs_cons_of_not _ _ (by decide)
  have hps2 := pstr_escBody v (rbraceCh :: z)
    ((escBody v ++ quoteCh :: (rbraceCh :: z)).length + 1) (by simp)
  have s2 : skipWs (rbraceCh :: z) = rbraceCh :: z :=
    skipWs_cons_of_not _ _ (by decide)
  rw [show f2 + 2 = (f2 + 1) + 1 from rfl, e1]
  simp only [pv]
  simp only [s0, eq_self_iff_true, if_true, hps, s1, s3, hlb, hlk, if_false,
    hps2, s2, hrc]

/-- Member-mode round trip of a non-final serialised member: the comma leads
into the remaining member list. -/
theorem pv_members_more (f2 : Nat) (k v z : List Char) :
    pv (f2 + 2) PMode.members (serPair (k, v) ++ ',' :: z)
      = (match pv (f2 + 1) PMode.members z with
         | some (Json.obj ms, rest) => some (Json.obj ((k, Json.str v) :: ms), rest)
         | _ => none) := by
  have e1 : serPair (k, v) ++ ',' :: z
      = quoteCh :: (escBody k ++ quoteCh ::
          (':' :: ' ' :: (serStr v ++ ',' :: z))) := by
    simp [serPair, serStr]
  have hlb : (quoteCh = lbraceCh) = False := by decide
  have hlk : (quoteCh = '[') = False := by decide
  have s0 : skipWs (quoteCh :: (escBody k ++ quoteCh ::
      (':' :: ' ' :: (serStr v ++ ',' :: z))))
      = quoteCh :: (escBody k ++ quoteCh ::
          (':' :: ' ' :: (serStr v ++ ',' :: z))) :=
    skipWs_cons_of_not _ _ (by decide)
  have hps := pstr_escBody k (':' :: ' ' :: (serStr v ++ ',' :: z))
    ((escBody k ++ quoteCh ::
      (':' :: ' ' :: (serStr v ++ ',' :: z))).length + 1) (by simp)
  have s1 : skipWs (':' :: ' ' :: (serStr v ++ ',' :: z))
      = ':' :: ' ' :: (serStr v ++ ',' :: z) :=
    skipWs_cons_of_not _ _ (by decide)
  have s3 : skipWs (' ' :: (serStr v ++ ',' :: z))
      = quoteCh :: (escBody v ++ quoteCh :: (',' :: z)) := by
    rw [skipWs_cons_of_ws _ _ (by decide)]
    rw [show serStr v ++ ',' :: z
        = quoteCh :: (escBody v ++ quoteCh :: (',' :: z)) from by
      simp [serStr]]
    exact skipWs_cons_of_not _ _ (by decide)
  have hps2 := pstr_escBody v (',' :: z)
    ((escBody v ++ quoteCh :: (',' :: z)).length + 1) (by simp)
  have s2 : skipWs (',' :: z) = ',' :: z :=
    skipWs_cons_of_not _ _ (by decide)
  rw [show f2 + 2 = (f2 + 1) + 1 from rfl, e1]
  simp only [pv]
  simp only [s0, eq_self_iff_true, if_true, hps, s1, s3, hlb, hlk, if_false,
    hps2, s2]

/-- Round trip of a whole serialised (nonempty) member list. -/
theorem pv_serMembers (r : List (List Char × List Char)) :
    ∀ (z : List Char) (f : Nat), r ≠ [] →
      2 * (serMembers r).length + 2 ≤ f →
      pv f PMode.members (serMembers r ++ rbraceCh :: z)
        = some (Json.obj (r.map (fun kv => (kv.1, Json.str kv.2))), z) := by
  induction r with
  | nil => intro z f hne _; exact absurd rfl hne
  | cons kv t ih =>
    intro z f hne hf
    obtain ⟨k, v⟩ := kv
    cases t with
    | nil =>
      obtain ⟨f2, rfl⟩ : ∃ f2, f = f2 + 2 := ⟨f - 2, by omega⟩
      rw [show serMembers [(k, v)] = serPair (k, v) from rfl]
      simpa using pv_members_last f2 k v z
    | cons kv2 t2 =>
      have l1 : (serMembers ((k, v) :: kv2 :: t2)).length
          = (serPair (k, v)).length + 2 + (serMembers (kv2 :: t2)).length := by
        simp [serMembers]
        omega
      obtain ⟨f2, rfl⟩ : ∃ f2, f = f2 + 2 := ⟨f - 2, by omega⟩
      have e1 : serMembers ((k, v) :: kv2 :: t2) ++ rbraceCh :: z
          = serPair (k, v)
              ++ ',' :: (' ' :: (serMembers (kv2 :: t2) ++ rbraceCh :: z)) := by
        simp [serMembers]
      rw [e1, pv_members_more f2 k v _]
      rw [pv_members_congr f2 _ _ (skipWs_cons_of_ws _ _ (by decide))]
      rw [ih z (f2 + 1) (by simp) (by omega)]
      simp

/-- A nonempty serialised member list starts with a quote. -/
theorem serMembers_cons_shape (kv : List Char × List Char)
    (t : List (List Char × List Char)) :
    ∃ X, serMembers (kv :: t) = quoteCh :: X := by
  cases t with
  | nil => exact ⟨_, rfl⟩
  | cons kv2 t2 => exact ⟨_, rfl⟩

/-- A nonempty serialised record list starts with an opening brace. -/
theorem serRecsBody_cons_shape (r : List (List Char × List Char))
    (t : List (List (List Char × List Char))) :
    ∃ X, serRecsBody (r :: t) = lbraceCh :: X := by
  cases t with
  | nil => exact ⟨_, rfl⟩
  | cons r2 t2 => exact ⟨_, rfl⟩

/-- Round trip of one serialised record value. -/
theorem pv_serRec (r : List (List Char × List Char)) (z : List Char) (f : Nat)
    (hn : (r.map Prod.fst).Nodup)
    (hf : 2 * (serRec r).length + 2 ≤ f) :
    pv f PMode.value (serRec r ++ z) = some (recToJson r, z) := by
  obtain ⟨f1, rfl⟩ : ∃ f1, f = f1 + 1 := ⟨f - 1, by omega⟩
  have e1 : serRec r ++ z = lbraceCh :: (serMembers r ++ rbraceCh :: z) := by
    simp [serRec]
  have s0 : skipWs (lbraceCh :: (serMembers r ++ rbraceCh :: z))
      = lbraceCh :: (serMembers r ++ rbraceCh :: z) :=
    skipWs_cons_of_not _ _ (by decide)
  rw [e1]
  simp only [pv]
  simp only [s0, eq_self_iff_true, if_true]
  cases r with
  | nil =>
    have s2 : skipWs (rbraceCh :: z) = rbraceCh :: z :=
      skipWs_cons_of_not _ _ (by decide)
    simp only [show serMembers ([] : List (List Char × List Char)) = []
        from rfl, List.nil_append, s2, eq_self_iff_true, if_true]
    simp [recToJson]
  | cons kv t =>
    have l2 : (serRec (kv :: t)).length = (serMembers (kv :: t)).length + 2 := by
      simp [serRec]
    obtain ⟨X, hX⟩ := serMembers_cons_shape kv t
    have s1 : skipWs (serMembers (kv :: t) ++ rbraceCh :: z)
        = quoteCh :: (X ++ rbraceCh :: z) := by
      rw [hX]
      exact skipWs_cons_of_not _ _ (by decide)
    have hqrb : (quoteCh = rbraceCh) = False := by decide
    have hkeys : (((kv :: t).map
        (fun kv2 => (kv2.1, Json.str kv2.2))).map Prod.fst).Nodup := by
      simpa using hn
    simp only [s1, hqrb, if_false]
    simp only [pv_serMembers (kv :: t) z f1 (by simp) (by omega),
      dictOf_self _ hkeys]
    simp [recToJson]

/-- Round trip of a whole serialised (nonempty) record list in element mode. -/
theorem pv_serElems (rs : List (List (List Char × List Char))) :
    ∀ (z : List Char) (f : Nat), rs ≠ [] →
      (∀ r ∈ rs, (r.map Prod.fst).Nodup) →
      2 * (serRecsBody rs).length + 4 ≤ f →
      pv f PMode.elems (serRecsBody rs ++ ']' :: z)
        = some (Json.arr (rs.map recToJson), z) := by
  induction rs with
  | nil => intro z f hne _ _; exact absurd rfl hne
  | cons r t ih =>
    intro z f hne hnd hf
    obtain ⟨f1, rfl⟩ : ∃ f1, f = f1 + 1 := ⟨f - 1, by omega⟩
    cases t with
    | nil =>
      have l1 : (serRecsBody [r]).length = (serRec r).length := by
        rw [show serRecsBody [r] = serRec r from rfl]
      simp only [pv]
      rw [show serRecsBody [r] = serRec r from rfl]
      simp only [pv_serRec r (']' :: z) f1 (hnd r (by simp)) (by omega)]
      have s2 : skipWs (']' :: z) = ']' :: z :=
        skipWs_cons_of_not _ _ (by decide)
      have hne2 : ((']' : Char) = ',') = False := by decide
      simp only [s2, hne2, if_false, eq_self_iff_true, if_true]
      simp
    | cons r2 t2 =>
      have l1 : (serRecsBody (r :: r2 :: t2)).length
          = (serRec r).length + 2 + (serRecsBody (r2 :: t2)).length := by
        simp [serRecsBody]
        omega
      have e1 : serRecsBody (r :: r2 :: t2) ++ ']' :: z
          = serRec r ++ ',' :: (' ' :: (serRecsBody (r2 :: t2) ++ ']' :: z)) := by
        simp [serRecsBody]
      rw [e1]
      simp only [pv]
      simp only [pv_serRec r (',' :: (' ' :: (serRecsBody (r2 :: t2) ++ ']' :: z)))
        f1 (hnd r (by simp)) (by omega)]
      have s2 : skipWs (',' :: (' ' :: (serRecsBody (r2 :: t2) ++ ']' :: z)))
          = ',' :: (' ' :: (serRecsBody (r2 :: t2) ++ ']' :: z)) :=
        skipWs_cons_of_not _ _ (by decide)
      simp only [s2, eq_self_iff_true, if_true]
      obtain ⟨f2, rfl⟩ : ∃ f2, f1 = f2 + 1 := ⟨f1 - 1, by omega⟩
      rw [pv_elems_congr f2 _ _ (skipWs_cons_of_ws _ _ (by decide))]
      rw [ih z (f2 + 1) (by simp)
        (fun r3 h3 => hnd r3 (List.mem_cons_of_mem _ h3)) (by omega)]
      simp

/-- Round trip of a whole serialised record array in value mode. -/
theorem pv_serRecords (rs : List (List (List Char × List Char)))
    (z : List Char) (f : Nat)
    (hnd : ∀ r ∈ rs, (r.map Prod.fst).Nodup)
    (hf : 2 * (serRecords rs).length + 2 ≤ f) :
    pv f PMode.value (serRecords rs ++ z) = some (recsToJson rs, z) := by
  have l1 : (serRecords rs).length = (serRecsBody rs).length + 2 := by
    simp [serRecords]
  obtain ⟨f1, rfl⟩ : ∃ f1, f = f1 + 1 := ⟨f - 1, by omega⟩
  have e1 : serRecords rs ++ z = '[' :: (serRecsBody rs ++ ']' :: z) := by
    simp [serRecords]
  have s0 : skipWs ('[' :: (serRecsBody rs ++ ']' :: z))
      = '[' :: (serRecsBody rs ++ ']' :: z) :=
    skipWs_cons_of_not _ _ (by decide)
  have hbl : (('[' : Char) = lbraceCh) = False := by decide
  rw [e1]
  simp only [pv]
  simp only [s0, hbl, if_false, eq_self_iff_true, if_true]
  cases rs with
  | nil =>
    have s2 : skipWs (']' :: z) = ']' :: z :=
      skipWs_cons_of_not _ _ (by decide)
    simp only [show serRecsBody
        ([] : List (List (List Char × List Char))) = [] from rfl,
      List.nil_append, s2, eq_self_iff_true, if_true]
    simp [recsToJson]
  | cons r t =>
    obtain ⟨X, hX⟩ := serRecsBody_cons_shape r t
    have s1 : skipWs (serRecsBody (r :: t) ++ ']' :: z)
        = lbraceCh :: (X ++ ']' :: z) := by
      rw [hX]
      exact skipWs_cons_of_not _ _ (by decide)
    have hlbne : (lbraceCh = ']') = False := by decide
    simp only [s1, hlbne, if_false]
    simp only [pv_serElems (r :: t) z f1 (by simp) hnd (by omega)]
    simp [recsToJson]

/-- `json.loads` inverts `json.dumps` on arrays of flat string records. -/
theorem json_loads_serRecords (rs : List (List (List Char × List Char)))
    (hnd : ∀ r ∈ rs, (r.map Prod.fst).Nodup) :
    json_loads (serRecords rs) = some (recsToJson rs) := by
  unfold json_loads
  have h := pv_serRecords rs [] (2 * (serRecords rs).length + 2) hnd (le_refl _)
  rw [List.append_nil] at h
  rw [h]
  simp [skipWs]

/-- Claim C8, amended: re-running the extractor on its own
successfully-extracted-then-re-serialised declaration array yields the same
structural result, provided the serialised text is clean for the cascade —
the fence search finds nothing and the embedded-array scan matches either
nothing or the whole serialisation.  (The counterexample shows the unamended
claim fails when the scan latches onto a premature `}]` inside a string.) -/
theorem c8_idempotent_on_clean_serialization :
    ∀ (text : List Char) (rs : List (List (List Char × List Char))),
      extractOk text = some (recsToJson rs) →
      (∀ r ∈ rs, (r.map Prod.fst).Nodup) →
      re1_core (serRecords rs) = none →
      (re2_core (serRecords rs) = none ∨
        re2_core (serRecords rs) = some (serRecords rs)) →
      extract_json_from_text (serRecords rs) = recsToJson rs := by
  intro text rs _hok hnd h1 h2
  have hl : json_loads (serRecords rs) = some (recsToJson rs) :=
    json_loads_serRecords rs hnd
  rcases h2 with h2 | h2 <;>
    simp only [extract_json_from_text, step23, h1, h2, hl]

/-- Claim C8, counterexample: a fenced reply parses to a two-record array
whose re-serialisation makes the embedded-array scan pick an unparsable
prefix (the `}]` inside the first string value), so re-extraction returns the
empty list instead of the same array. -/
theorem c8_not_idempotent_cx :
    extract_json_from_text "```[\x7b\"d\": \"\x7d]\"\x7d, \x7b\"e\": \"x\"\x7d]```".data
      = recsToJson [[("d".data, "\x7d]".data)], [("e".data, "x".data)]] ∧
    serRecords [[("d".data, "\x7d]".data)], [("e".data, "x".data)]]
      = "[\x7b\"d\": \"\x7d]\"\x7d, \x7b\"e\": \"x\"\x7d]".data ∧
    re2_core (serRecords [[("d".data, "\x7d]".data)], [("e".data, "x".data)]])
      = some "[\x7b\"d\": \"\x7d]".data ∧
    extract_json_from_text
        (serRecords [[("d".data, "\x7d]".data)], [("e".data, "x".data)]])
      = Json.arr [] ∧
    extract_json_from_text
        (serRecords [[("d".data, "\x7d]".data)], [("e".data, "x".data)]])
      ≠ recsToJson [[("d".data, "\x7d]".data)], [("e".data, "x".data)]] :=
  ⟨rfl, by decide, by decide, rfl,
   fun h => absurd (congrArg topLen h) (by decide)⟩

/-- Witness for the amended C8 theorem: a fenced reply whose array
re-serialises cleanly and re-extracts to the same array. -/
theorem c8_idempotent_on_clean_serialization_witness :
    extractOk "```json\n[\x7b\"name\": \"p1\"\x7d]\n```".data
      = some (recsToJson [[("name".data, "p1".data)]]) ∧
    extract_json_from_text (serRecords [[("name".data, "p1".data)]])
      = recsToJson [[("name".data, "p1".data)]] :=
  ⟨rfl,
   c8_idempotent_on_clean_serialization
     "```json\n[\x7b\"name\": \"p1\"\x7d]\n```".data
     [[("name".data, "p1".data)]]
     rfl (by decide) (by decide) (Or.inr (by decide))⟩
